import Mathlib

/-!
# Verification of the video_transcoder pipeline core

Shallow embedding of the transcoder's core data structures and algorithms
(`include/queue.h`, `src/Transcoder.cpp`, `src/demuxer.cpp`, `src/muxer.cpp`,
`audio_processor.cpp`, the two decoder thread functions), with theorems
settling the specification claims about them.

Modelling conventions:
* C++ `double` parameters (speed factor, brightness, contrast) are modelled
  as `ℚ`; at every concrete value used in a theorem the double computation
  and the rational computation agree (the values are far from any rounding
  boundary of the source expressions).
* `int64_t` counters that start at 0 and only grow are modelled as `ℕ`;
  frame/packet timestamps are `ℤ` (with `Option ℤ` where the source
  distinguishes `AV_NOPTS_VALUE`).
* `static_cast<int>` of a positive floating value truncates toward zero,
  which for positive arguments equals `Int.floor`; the embedding uses
  `Int.floor` and every use site is positive.
* External libraries (libswscale, OpenGL, SoundTouch, the codecs) are out
  of scope per the spec; they appear as parameters of the embedding
  (an arbitrary pixel transformation, an arbitrary sequence of sample
  batches, an abstract codec with a decode delay).
-/

namespace Transcoder

/-! ## Bounded(?) media queue — `include/queue.h`, `ThreadSafeQueue<T>`

The queue state is its list of items plus the `finished_` flag.  The
constructor `ThreadSafeQueue() : finished_(false)` takes no capacity
argument.  `push` (queue.h lines 29–35) appends unconditionally unless
`finished_` is set; `finish` (lines 52–56) sets the flag.  `pop` blocks
while the queue is empty and not finished; consumers therefore observe
exactly the pushed items in order, and `false` once the queue is finished
and drained — in the thread-function embeddings below a consumer's input
is accordingly modelled as the list of items its producer pushes. -/

structure TSQueue (α : Type) where
  items : List α
  finished : Bool
deriving Repr, DecidableEq

def TSQueue.empty {α} : TSQueue α := ⟨[], false⟩

/-- `push(value)`: appends unless `finished_` is set (queue.h lines 29–35). -/
def TSQueue.push {α} (q : TSQueue α) (v : α) : TSQueue α :=
  if q.finished then q else { q with items := q.items ++ [v] }

/-- `finish()`: marks the queue terminal (queue.h lines 52–56). -/
def TSQueue.finish {α} (q : TSQueue α) : TSQueue α :=
  { q with finished := true }

/-- `size()` (queue.h lines 65–68). -/
def TSQueue.size {α} (q : TSQueue α) : ℕ := q.items.length

/-- Push a whole list of values in order. -/
def TSQueue.pushAll {α} (q : TSQueue α) (vs : List α) : TSQueue α :=
  vs.foldl TSQueue.push q

theorem TSQueue.push_items_of_not_finished {α} (q : TSQueue α) (v : α)
    (h : q.finished = false) : (q.push v).items = q.items ++ [v] := by
  simp [TSQueue.push, h]

theorem TSQueue.pushAll_size {α} (q : TSQueue α) (vs : List α)
    (h : q.finished = false) :
    (q.pushAll vs).size = q.size + vs.length := by
  induction vs generalizing q with
  | nil => simp [TSQueue.pushAll, TSQueue.size]
  | cons v vs ih =>
      have hquf : (q.push v).finished = false := by
        simp [TSQueue.push, h]
      have hstep := ih (q.push v) hquf
      simp only [TSQueue.pushAll, List.foldl_cons] at hstep ⊢
      rw [hstep]
      simp [TSQueue.size, TSQueue.push, h]
      omega

/-! ## Configuration validation — `Transcoder.cpp`, `main`, lines 145–159 -/

/-- The speed-factor validation in `main` (Transcoder.cpp lines 145–148):
`if (speed_factor <= 0.1 || speed_factor > 5.0) return -1;`.
Returns `true` iff validation passes. -/
def validateSpeedFactor (s : ℚ) : Bool :=
  !(s ≤ 1/10 || s > 5)

/-- Brightness validation (Transcoder.cpp lines 151–154). -/
def validateBrightness (b : ℚ) : Bool :=
  !(b < 0 || b > 2)

/-- Contrast validation (Transcoder.cpp lines 156–159). -/
def validateContrast (c : ℚ) : Bool :=
  !(c < 0 || c > 2)

/-! ## Video speed gate — `Transcoder.cpp`, `VideoProcessor::should_process_frame`,
lines 1264–1289.

`frame_counter_` has already been incremented when the branch executes, so
`k` below is the 1-based index of the input frame.  For `speed_factor > 1`
other than 1.5 and 2.0 the source computes
`int keep_frames = static_cast<int>(100.0 / params_.speed_factor)` — a
truncation, which for the positive quotient equals the floor — and keeps
the frame iff `frame_counter_ % 100 < keep_frames`. -/

def shouldProcessFrame (speedEnabled : Bool) (speed : ℚ) (k : ℕ) : Bool :=
  if !speedEnabled then
    true
  else if speed > 1 then
    if speed = 3/2 then
      decide (k % 3 ≠ 0)
    else if speed = 2 then
      decide (k % 2 = 1)
    else
      decide ((k : ℤ) % 100 < ⌊(100 : ℚ) / speed⌋)
  else
    true

/-- The keep-pattern exactly as the CLAIM states it for the generic case
(`round(100 / speed)` rather than the truncation the source computes):
a second definition, written from the spec's words, for comparison with
`shouldProcessFrame`. -/
def specKeepPattern (speed : ℚ) (k : ℕ) : Bool :=
  if speed = 3/2 then
    decide (k % 3 ≠ 0)
  else if speed = 2 then
    decide (k % 2 = 1)
  else
    decide ((k : ℤ) % 100 < round ((100 : ℚ) / speed))

/-! ## Demuxer stream selection — `demuxer.cpp`

`get_stream_info` (lines 24–51) records a stream only while the index is
still `-1`, i.e. it keeps the FIRST stream of each kind.
`demux_thread_func_with_params` (lines 95–101) overwrites the index on
every match, i.e. it keeps the LAST stream of each kind. -/

inductive StreamKind | video | audio | other
deriving Repr, DecidableEq

/-- The stream-scanning loop of `get_stream_info` (demuxer.cpp lines
24–51): a stream index is recorded only while it is still `-1` (modelled
as `none`), so the FIRST stream of each kind wins.  `i` is the running
loop index, `acc` the pair (video index, audio index). -/
def probeSelectAux : ℕ → List StreamKind → Option ℕ × Option ℕ →
    Option ℕ × Option ℕ
  | _, [], acc => acc
  | i, s :: rest, (v, a) =>
      if s = StreamKind.video ∧ v = none then
        probeSelectAux (i + 1) rest (some i, a)
      else if s = StreamKind.audio ∧ a = none then
        probeSelectAux (i + 1) rest (v, some i)
      else
        probeSelectAux (i + 1) rest (v, a)

/-- Probe stream selection (`get_stream_info`). -/
def probeSelect (streams : List StreamKind) : Option ℕ × Option ℕ :=
  probeSelectAux 0 streams (none, none)

/-- The stream-scanning loop of `demux_thread_func_with_params`
(demuxer.cpp lines 95–101): `video_stream_index = i` runs for EVERY video
stream — there is no `== -1` guard — so the LAST stream of each kind wins;
`enable_video`/`enable_audio` gate the two branches. -/
def demuxSelectAux (enableV enableA : Bool) : ℕ → List StreamKind →
    Option ℕ × Option ℕ → Option ℕ × Option ℕ
  | _, [], acc => acc
  | i, s :: rest, (v, a) =>
      if s = StreamKind.video ∧ enableV then
        demuxSelectAux enableV enableA (i + 1) rest (some i, a)
      else if s = StreamKind.audio ∧ enableA then
        demuxSelectAux enableV enableA (i + 1) rest (v, some i)
      else
        demuxSelectAux enableV enableA (i + 1) rest (v, a)

/-- Dispatch stream selection (`demux_thread_func_with_params`). -/
def demuxSelect (streams : List StreamKind) (enableV enableA : Bool) :
    Option ℕ × Option ℕ :=
  demuxSelectAux enableV enableA 0 streams (none, none)

/-- Number of streams of a given kind. -/
def countKind (k : StreamKind) (streams : List StreamKind) : ℕ :=
  (streams.filter fun s => s = k).length

/-! ## Demuxer run — `demuxer.cpp`, `demux_thread_func_with_params`,
lines 72–152.

The input container is abstracted as: whether `avformat_open_input`
succeeds, whether `avformat_find_stream_info` succeeds, the stream-kind
list, and the packet sequence `av_read_frame` delivers before EOF (a read
error is EOF per the source loop condition). -/

/-- A demuxed packet: the container stream it belongs to plus an abstract
payload standing for the compressed data. -/
structure DPacket where
  streamIndex : ℕ
  payload : ℕ
deriving Repr, DecidableEq

structure DemuxInput where
  openOk : Bool
  findInfoOk : Bool
  streams : List StreamKind
  packets : List DPacket
  maxFrames : ℕ
  enableV : Bool
  enableA : Bool

/-- The packet loop (demuxer.cpp lines 117–137): dispatch on
`packet->stream_index`, count video packets, and break once
`max_frames > 0 && video_frame_count >= max_frames`. -/
def demuxPacketLoop (maxFrames : ℕ) (vidx aidx : Option ℕ) :
    List DPacket → ℕ → TSQueue DPacket → TSQueue DPacket →
    TSQueue DPacket × TSQueue DPacket
  | [], _, vq, aq => (vq, aq)
  | p :: rest, vcount, vq, aq =>
      if vidx = some p.streamIndex then
        let vq' := vq.push p
        let vcount' := vcount + 1
        if 0 < maxFrames ∧ maxFrames ≤ vcount' then (vq', aq)
        else demuxPacketLoop maxFrames vidx aidx rest vcount' vq' aq
      else if aidx = some p.streamIndex then
        let aq' := aq.push p
        if 0 < maxFrames ∧ maxFrames ≤ vcount then (vq, aq')
        else demuxPacketLoop maxFrames vidx aidx rest vcount vq aq'
      else
        if 0 < maxFrames ∧ maxFrames ≤ vcount then (vq, aq)
        else demuxPacketLoop maxFrames vidx aidx rest vcount vq aq

/-- The whole demuxer stage.  The early-return failure paths (open failure,
lines 82–85; stream-info failure, lines 88–92; no stream found, lines
103–107) leave both queues exactly as they were — in particular NOT
finished.  Only the normal path reaches the `finish()` calls at lines
140–145. -/
def demuxRun (inp : DemuxInput) (vq aq : TSQueue DPacket) :
    TSQueue DPacket × TSQueue DPacket :=
  if !inp.openOk then (vq, aq)
  else if !inp.findInfoOk then (vq, aq)
  else
    let sel := demuxSelect inp.streams inp.enableV inp.enableA
    if sel.1 = none ∧ sel.2 = none then (vq, aq)
    else
      let r := demuxPacketLoop inp.maxFrames sel.1 sel.2 inp.packets 0 vq aq
      (r.1.finish, r.2.finish)

/-! ## Video processor — `Transcoder.cpp`, `VideoProcessor`, lines 571–1313,
and `video_process_thread_func`, lines 1316–1381.

Pixel planes are byte arrays indexed `y * linesize + x`; the allocated
buffer of a plane may be larger than `linesize * height` (alignment), so a
plane write touches only the prefix the source addresses.  `AV_PIX_FMT_YUV420P`
is modelled as format code 0. -/

def AV_PIX_FMT_YUV420P : ℕ := 0

/-- An `AVFrame` as the video pipeline uses it.  `dts` models `pkt_dts`. -/
structure VFrame where
  width : ℕ
  height : ℕ
  format : ℕ
  pts : ℤ
  dts : ℤ
  duration : ℤ
  dataY : Array ℕ
  dataU : Array ℕ
  dataV : Array ℕ
  linesize0 : ℕ
  linesize1 : ℕ
  linesize2 : ℕ
deriving Repr, DecidableEq

structure VideoProcessParams where
  rotationAngle : ℚ
  enableBlur : Bool
  enableSharpen : Bool
  enableGrayscale : Bool
  brightness : ℚ
  contrast : ℚ
  enableSpeedChange : Bool
  speedFactor : ℚ
  outputWidth : ℕ
  outputHeight : ℕ
deriving Repr, DecidableEq

/-- The processor after a successful `initialize` (lines 594–677): output
size falls back to the input size when no explicit output size is
configured; the output format is always `AV_PIX_FMT_YUV420P`
(`output_format_` in the constructor, line 574). -/
structure VProcessor where
  params : VideoProcessParams
  inputW : ℕ
  inputH : ℕ
  inputFormat : ℕ
  outW : ℕ
  outH : ℕ
  outFormat : ℕ
deriving Repr, DecidableEq

def VProcessor.mk' (params : VideoProcessParams) (iw ih ifmt : ℕ) : VProcessor :=
  { params := params, inputW := iw, inputH := ih, inputFormat := ifmt,
    outW := if 0 < params.outputWidth ∧ 0 < params.outputHeight then
        params.outputWidth else iw,
    outH := if 0 < params.outputWidth ∧ 0 < params.outputHeight then
        params.outputHeight else ih,
    outFormat := AV_PIX_FMT_YUV420P }

/-- Mutable processor state: `speed_processing_enabled_` (set in
`initialize`, line 659, iff speed change is enabled and the factor is not
1.0), `frame_counter_` and `total_output_frames_` (both 0 in the
constructor, line 582). -/
structure VPState where
  speEnabled : Bool
  frameCounter : ℕ
  totalOutputFrames : ℕ
deriving Repr, DecidableEq

def VProcessor.initState (p : VProcessor) : VPState :=
  { speEnabled := p.params.enableSpeedChange ∧ p.params.speedFactor ≠ 1,
    frameCounter := 0,
    totalOutputFrames := 0 }

/-- External collaborators of `process_frame`: whether
`rotate_frame_opengl` succeeds and the plane contents it produces, whether
`sws_scale` succeeds (`ret >= 0`) and the plane contents it produces, and
the linesizes `av_frame_get_buffer` picks for the output planes.  The spec
treats the GPU and the scaler as black boxes; all theorems below hold for
every choice of these. -/
structure ExtOps where
  gpuOk : Bool
  rotPlanes : VFrame → Array ℕ × Array ℕ × Array ℕ
  swsOk : Bool
  swsPlanes : VFrame → Array ℕ × Array ℕ × Array ℕ
  allocLinesizeY : ℕ
  allocLinesizeUV : ℕ

/-- Overwrite the first `n` bytes of a plane with `v` (`memset`). -/
def memsetPrefix (a : Array ℕ) (v : ℕ) (n : ℕ) : Array ℕ :=
  Array.ofFn (fun i : Fin a.size => if (i : ℕ) < n then v else a[i])

/-- `apply_grayscale` (lines 1113–1124): for YUV420P, overwrite both
chroma planes with the neutral value 128 over `linesize[1] * height / 2`
bytes (the source uses `linesize[1]` for both planes); any other format is
a pass-through. -/
def applyGrayscale (f : VFrame) : VFrame :=
  if f.format ≠ AV_PIX_FMT_YUV420P then f
  else
    let uvSize := f.linesize1 * f.height / 2
    { f with dataU := memsetPrefix f.dataU 128 uvSize,
             dataV := memsetPrefix f.dataV 128 uvSize }

/-- One luma sample of `apply_brightness_contrast` (lines 1135–1143):
`pixel = ((y - 128) * contrast + 128) * brightness`, then
`max(0, min(255, (int)pixel))`.  The `(int)` cast truncates toward zero;
under the following `max 0` the truncation agrees with the floor used
here (both clamp every value below 1 that could round differently to 0). -/
def bcPixel (brightness contrast : ℚ) (y : ℕ) : ℕ :=
  (max 0 (min 255 ⌊(((y : ℚ) - 128) * contrast + 128) * brightness⌋)).toNat

/-- `apply_brightness_contrast` (lines 1126–1146): transforms the first
`linesize[0] * height` luma bytes; other formats pass through. -/
def applyBrightnessContrast (brightness contrast : ℚ) (f : VFrame) : VFrame :=
  if f.format ≠ AV_PIX_FMT_YUV420P then f
  else
    let ySize := f.linesize0 * f.height
    { f with dataY := Array.ofFn (fun i : Fin f.dataY.size =>
        if (i : ℕ) < ySize then bcPixel brightness contrast f.dataY[i]
        else f.dataY[i]) }

/-- Sum of the 3×3 neighbourhood of `(x, y)` in a plane of stride `ls`
(all nine reads are in bounds in the source's memory; `getD _ 0` never
falls back for the index ranges the filters use). -/
def neighborSum (a : Array ℕ) (ls x y : ℕ) : ℕ :=
  a.getD ((y - 1) * ls + (x - 1)) 0 + a.getD ((y - 1) * ls + x) 0 +
  a.getD ((y - 1) * ls + (x + 1)) 0 +
  a.getD (y * ls + (x - 1)) 0 + a.getD (y * ls + x) 0 +
  a.getD (y * ls + (x + 1)) 0 +
  a.getD ((y + 1) * ls + (x - 1)) 0 + a.getD ((y + 1) * ls + x) 0 +
  a.getD ((y + 1) * ls + (x + 1)) 0

/-- `apply_blur` (lines 1148–1183): 3×3 box filter on the luma interior
(`1 ≤ x ≤ width-2`, `1 ≤ y ≤ height-2`), reading from a copy of the
original plane (`temp_data`); integer division by 9. -/
def applyBlur (f : VFrame) : VFrame :=
  if f.format ≠ AV_PIX_FMT_YUV420P then f
  else
    let ls := f.linesize0
    let old := f.dataY
    { f with dataY := Array.ofFn (fun i : Fin f.dataY.size =>
        let y := (i : ℕ) / ls
        let x := (i : ℕ) % ls
        if 1 ≤ y ∧ y + 1 < f.height ∧ 1 ≤ x ∧ x + 1 < f.width then
          neighborSum old ls x y / 9
        else old[i]) }

/-- `apply_sharpen` (lines 1185–1218): `5·center − up − down − left −
right` on the luma interior, clamped to `[0, 255]`, reading from a copy of
the original plane. -/
def applySharpen (f : VFrame) : VFrame :=
  if f.format ≠ AV_PIX_FMT_YUV420P then f
  else
    let ls := f.linesize0
    let old := f.dataY
    { f with dataY := Array.ofFn (fun i : Fin f.dataY.size =>
        let y := (i : ℕ) / ls
        let x := (i : ℕ) % ls
        if 1 ≤ y ∧ y + 1 < f.height ∧ 1 ≤ x ∧ x + 1 < f.width then
          (max 0 (min 255
            (5 * (old.getD (y * ls + x) 0 : ℤ) -
              (old.getD ((y - 1) * ls + x) 0 : ℤ) -
              (old.getD ((y + 1) * ls + x) 0 : ℤ) -
              (old.getD (y * ls + (x - 1)) 0 : ℤ) -
              (old.getD (y * ls + (x + 1)) 0 : ℤ)))).toNat
        else old[i]) }

/-- Result of one `process_frame` call: the state after the call, the
input frame as the call leaves it, and the produced output frame if the
call returned `true`. -/
structure PFOut where
  st : VPState
  inputAfter : VFrame
  output : Option VFrame
deriving Repr, DecidableEq

/-- The body of `process_frame` after the speed gate (lines 691–757):
allocate the output frame (metadata `output_width_ × output_height_`,
`output_format_`), fill its planes through the GPU rotation (falling back
to `sws_scale` on GPU failure) or through `sws_scale` alone when no
rotation is configured, apply the four optional filters to the OUTPUT
frame, then stamp `pts = total_output_frames_`, `pkt_dts = pts`,
increment the counter, and set `duration = 1`.  A scaler failure returns
`false` with no output.  Every write in the source targets
`output_frame`; the input frame is only read, so `inputAfter` is the
unchanged input. -/
def VProcessor.processCore (p : VProcessor) (E : ExtOps) (st : VPState)
    (inp : VFrame) : PFOut :=
  match
    (if p.params.rotationAngle ≠ 0 then
      if E.gpuOk then some (E.rotPlanes inp)
      else if E.swsOk then some (E.swsPlanes inp)
      else none
    else
      if E.swsOk then some (E.swsPlanes inp) else none) with
  | none => ⟨st, inp, none⟩
  | some (py, pu, pv) =>
      let f0 : VFrame :=
        { width := p.outW, height := p.outH, format := p.outFormat,
          pts := 0, dts := 0, duration := 0,
          dataY := py, dataU := pu, dataV := pv,
          linesize0 := E.allocLinesizeY, linesize1 := E.allocLinesizeUV,
          linesize2 := E.allocLinesizeUV }
      let f1 := if p.params.enableGrayscale then applyGrayscale f0 else f0
      let f2 := if p.params.brightness ≠ 1 ∨ p.params.contrast ≠ 1 then
          applyBrightnessContrast p.params.brightness p.params.contrast f1
        else f1
      let f3 := if p.params.enableBlur then applyBlur f2 else f2
      let f4 := if p.params.enableSharpen then applySharpen f3 else f3
      let out : VFrame :=
        { f4 with
          pts := (st.totalOutputFrames : ℤ),
          dts := (st.totalOutputFrames : ℤ),
          duration := 1,
          format := p.outFormat, width := p.outW, height := p.outH }
      ⟨{ st with totalOutputFrames := st.totalOutputFrames + 1 }, inp, some out⟩

/-- `process_frame` (lines 679–758).  When speed processing is enabled it
first runs `should_process_frame`, which increments `frame_counter_` and
applies the drop pattern; a dropped frame returns `false` (no output, no
`total_output_frames_` change). -/
def VProcessor.processFrame (p : VProcessor) (E : ExtOps) (st : VPState)
    (inp : VFrame) : PFOut :=
  if st.speEnabled then
    if shouldProcessFrame true p.params.speedFactor (st.frameCounter + 1) then
      p.processCore E { st with frameCounter := st.frameCounter + 1 } inp
    else
      ⟨{ st with frameCounter := st.frameCounter + 1 }, inp, none⟩
  else
    p.processCore E st inp

/-- Number of duplicate frames the thread emits per processed frame when
slowing down: `static_cast<int>(1.0 / speed) - 1` (lines 1350–1351), with
the loop running only for a positive count.  For `0 < speed < 1` the cast
truncates a positive value, i.e. takes its floor. -/
def dupCount (speed : ℚ) : ℕ :=
  (⌊1 / speed⌋ - 1).toNat

/-- The duplicate-emission loop (lines 1354–1370): each duplicate is a ref
of the produced output frame restamped with `pts = get_next_frame_pts()`
(which returns `total_output_frames_` and increments it, lines 1309–1313),
`pkt_dts = pts`, `duration = 1`. -/
def emitDuplicates : ℕ → VPState → VFrame → VPState × List VFrame
  | 0, st, _ => (st, [])
  | n + 1, st, out =>
      let d := { out with
        pts := (st.totalOutputFrames : ℤ),
        dts := (st.totalOutputFrames : ℤ),
        duration := 1 }
      let st' := { st with totalOutputFrames := st.totalOutputFrames + 1 }
      let r := emitDuplicates n st' out
      (r.1, d :: r.2)

/-- Processing of one popped input frame by the thread loop body
(lines 1332–1377): run `process_frame`; on success push the output and,
when `params.enable_speed_change && params.speed_factor < 1.0`, push the
duplicates. -/
def VProcessor.stepInput (p : VProcessor) (E : ExtOps) (st : VPState)
    (inp : VFrame) : VPState × List VFrame :=
  let r := p.processFrame E st inp
  match r.output with
  | none => (r.st, [])
  | some out =>
      if p.params.enableSpeedChange ∧ p.params.speedFactor < 1 then
        let d := emitDuplicates (dupCount p.params.speedFactor) r.st out
        (d.1, out :: d.2)
      else
        (r.st, [out])

def VProcessor.runLoop (p : VProcessor) (E : ExtOps) :
    List VFrame → VPState → VPState × List VFrame
  | [], st => (st, [])
  | f :: rest, st =>
      let s := p.stepInput E st f
      let r := p.runLoop E rest s.1
      (r.1, s.2 ++ r.2)

/-- `video_process_thread_func` (lines 1316–1381): on `initialize` failure
it returns WITHOUT finishing the output queue (lines 1323–1327); otherwise
it processes every input frame and finishes the output queue (line 1379).
Returns the emitted frames and whether the output queue was finished. -/
def runVideoThread (p : VProcessor) (E : ExtOps) (initOk : Bool)
    (inputs : List VFrame) : List VFrame × Bool :=
  if !initOk then ([], false)
  else
    let r := p.runLoop E inputs p.initState
    (r.2, true)

/-! ## Decoder stages — `video_decode_to_frames_thread_func` and
`audio_decode_to_frames_thread_func`.

The codec is the spec's black box ("a codec may emit 0, 1, or many frames
per packet").  It is modelled with a decode delay `d`: submitted packets
decode to frames held in an internal FIFO, and `avcodec_receive_frame`
delivers a frame only while more than `d` frames are buffered — until the
null flush packet arrives, after which every buffered frame is delivered
and then `AVERROR_EOF`.  This realises the legal behaviour of any codec
with frame reordering delay. -/

structure CodecState where
  buf : List ℕ
  flushed : Bool
deriving Repr, DecidableEq

/-- `avcodec_send_packet`: a real packet decodes to one frame appended to
the internal FIFO; the null packet enters flush mode. -/
def codecSend (c : CodecState) (p : Option ℕ) : CodecState :=
  match p with
  | some pay => { c with buf := c.buf ++ [pay] }
  | none => { c with flushed := true }

/-- `avcodec_receive_frame`: `some` on success; `none` stands for both
`AVERROR(EAGAIN)` (not flushed, nothing deliverable yet) and `AVERROR_EOF`
(flushed and empty) — in either case the receive loop ends. -/
def codecReceive (d : ℕ) (c : CodecState) : Option (ℕ × CodecState) :=
  match c.buf with
  | [] => none
  | f :: rest =>
      if c.flushed ∨ d < c.buf.length then some (f, { c with buf := rest })
      else none

/-- The inner `while (ret >= 0) { avcodec_receive_frame ... }` loop: drain
every deliverable frame.  Each successful receive shortens the FIFO, so
`c.buf.length` steps of fuel always suffice. -/
def codecDrain (d : ℕ) : ℕ → CodecState → CodecState × List ℕ
  | 0, c => (c, [])
  | fuel + 1, c =>
      match codecReceive d c with
      | none => (c, [])
      | some (f, c') =>
          let r := codecDrain d fuel c'
          (r.1, f :: r.2)

/-- The packet loop of `video_decode_to_frames_thread_func` (part_003
lines 348–378): pop a packet, submit it, drain; when the input queue
terminates the loop just BREAKS — no null flush packet is submitted and no
final drain happens. -/
def videoDecodeLoop (d : ℕ) : List ℕ → CodecState → List ℕ
  | [], _ => []
  | p :: rest, c =>
      let c1 := codecSend c (some p)
      let r := codecDrain d c1.buf.length c1
      r.2 ++ videoDecodeLoop d rest r.1

/-- `video_decode_to_frames_thread_func`: the emitted frames and whether
the output queue was finished (it is, line 381). -/
def videoDecodeThread (d : ℕ) (pkts : List ℕ) : List ℕ × Bool :=
  (videoDecodeLoop d pkts ⟨[], false⟩, true)

/-- The packet loop of `audio_decode_to_frames_thread_func` (part_006
lines 346–427): identical per-packet handling, but when the input queue
terminates the stage submits the NULL flush packet and drains the codec to
`AVERROR_EOF` before finishing. -/
def audioDecodeLoop (d : ℕ) : List ℕ → CodecState → List ℕ
  | [], c =>
      let c1 := codecSend c none
      (codecDrain d c1.buf.length c1).2
  | p :: rest, c =>
      let c1 := codecSend c (some p)
      let r := codecDrain d c1.buf.length c1
      r.2 ++ audioDecodeLoop d rest r.1

/-- `audio_decode_to_frames_thread_func`: emitted frames, output queue
finished (line 437). -/
def audioDecodeThread (d : ℕ) (pkts : List ℕ) : List ℕ × Bool :=
  (audioDecodeLoop d pkts ⟨[], false⟩, true)

/-! ## Muxer — `muxer.cpp`, `mux_thread_func`, lines 11–194.

Stream time bases are set to `(1, fps)` for video and `(1, sample_rate)`
for audio (lines 48 and 71), and `av_packet_rescale_ts` converts from
exactly those same bases (lines 158–164), so the rescale is the identity
on the pts tick values; the comparison `video_pts <= audio_pts`
(line 112) therefore compares raw ticks of DIFFERENT units (frames vs
samples).  Each consumer queue is modelled by the list of packets its
producer delivers before finishing; `pop` failing is the terminal state. -/

/-- An encoded packet: `pts = none` models `AV_NOPTS_VALUE`. -/
structure EPacket where
  pts : Option ℤ
  payload : ℕ
deriving Repr, DecidableEq

/-- One packet as handed to `av_interleaved_write_frame`. -/
structure MuxWrite where
  isVideo : Bool
  pts : ℤ
  payload : ℕ
deriving Repr, DecidableEq

structure MuxState where
  vqueue : List EPacket
  aqueue : List EPacket
  videoDone : Bool
  audioDone : Bool
  videoPts : ℤ
  audioPts : ℤ
  vcount : ℕ
  acount : ℕ
  writes : List MuxWrite
deriving Repr, DecidableEq

/-- One iteration of the muxer's main loop (lines 105–180): select a side
— comparing the pts of the LAST WRITTEN packet of each stream
(`video_pts`/`audio_pts`, both initially 0), ties to video, a terminated
side never selected — then pop it; a failed pop marks the side done;
otherwise count the packet, synthesize a missing pts from the running
packet count (lines 147–155, the count already incremented by the pop),
rescale (identity, see above), remember the pts and write the packet. -/
def muxStep (s : MuxState) : MuxState :=
  let isVideo : Bool :=
    if !s.videoDone && !s.audioDone then decide (s.videoPts ≤ s.audioPts)
    else !s.videoDone
  if isVideo && !s.videoDone then
    match s.vqueue with
    | [] => { s with videoDone := true }
    | p :: rest =>
        let vc := s.vcount + 1
        let pts := p.pts.getD (vc : ℤ)
        { s with vqueue := rest, vcount := vc, videoPts := pts,
                 writes := s.writes ++ [⟨true, pts, p.payload⟩] }
  else if !isVideo && !s.audioDone then
    match s.aqueue with
    | [] => { s with audioDone := true }
    | p :: rest =>
        let ac := s.acount + 1
        let pts := p.pts.getD (ac : ℤ)
        { s with aqueue := rest, acount := ac, audioPts := pts,
                 writes := s.writes ++ [⟨false, pts, p.payload⟩] }
  else s

/-- `while (!video_done || !audio_done)`.  Every iteration either writes a
packet or flips a done flag, so `vqueue.length + aqueue.length + 2` fuel
always reaches the exit. -/
def muxLoop : ℕ → MuxState → MuxState
  | 0, s => s
  | fuel + 1, s =>
      if !s.videoDone || !s.audioDone then muxLoop fuel (muxStep s) else s

def muxRun (vs as : List EPacket) : MuxState :=
  muxLoop (vs.length + as.length + 2)
    { vqueue := vs, aqueue := as, videoDone := false, audioDone := false,
      videoPts := 0, audioPts := 0, vcount := 0, acount := 0, writes := [] }

/-- The whole muxer thread: the loop, then `av_write_trailer` (line 183,
reached only after both queues have terminated and drained). -/
def muxThread (vs as : List EPacket) : MuxState × Bool :=
  (muxRun vs as, true)

/-- The interleave policy as the CLAIM states it, written from the spec's
words: compare the HEAD pts of the two queues after rescaling to a common
basis (video ticks in `(1, fps)`, audio ticks in `(1, sample_rate)`, so
video ≤ audio iff `vpts · sample_rate ≤ apts · fps`), ties to video; when
one side is exhausted drain the other.  Stated for packets carrying
explicit pts (`getD 0` is never taken on the comparison inputs below). -/
def muxSpecClaim (fps sampleRate : ℕ) : List EPacket → List EPacket →
    List MuxWrite
  | [], [] => []
  | v :: vs, [] =>
      ⟨true, v.pts.getD 0, v.payload⟩ :: muxSpecClaim fps sampleRate vs []
  | [], a :: as =>
      ⟨false, a.pts.getD 0, a.payload⟩ :: muxSpecClaim fps sampleRate [] as
  | v :: vs, a :: as =>
      if v.pts.getD 0 * sampleRate ≤ a.pts.getD 0 * fps then
        ⟨true, v.pts.getD 0, v.payload⟩ ::
          muxSpecClaim fps sampleRate vs (a :: as)
      else
        ⟨false, a.pts.getD 0, a.payload⟩ ::
          muxSpecClaim fps sampleRate (v :: vs) as
termination_by vs as => vs.length + as.length

/-- The interleave policy the source actually implements (the amended
claim), as a direct recursion: select video iff the pts of the last
written video packet is ≤ the pts of the last written audio packet, both
in raw ticks of their own time bases (initially 0, so the first packet is
always video when both streams are non-empty), ties to video; drain the
survivor; missing pts synthesized from the 1-based running packet count of
the stream. -/
def muxSpecAmended : List EPacket → List EPacket → ℤ → ℤ → ℕ → ℕ →
    List MuxWrite
  | [], [], _, _, _, _ => []
  | v :: vs, [], vp, ap, vc, ac =>
      let np := v.pts.getD ((vc + 1 : ℕ) : ℤ)
      ⟨true, np, v.payload⟩ :: muxSpecAmended vs [] np ap (vc + 1) ac
  | [], a :: as, vp, ap, vc, ac =>
      let np := a.pts.getD ((ac + 1 : ℕ) : ℤ)
      ⟨false, np, a.payload⟩ :: muxSpecAmended [] as vp np vc (ac + 1)
  | v :: vs, a :: as, vp, ap, vc, ac =>
      if vp ≤ ap then
        let np := v.pts.getD ((vc + 1 : ℕ) : ℤ)
        ⟨true, np, v.payload⟩ :: muxSpecAmended vs (a :: as) np ap (vc + 1) ac
      else
        let np := a.pts.getD ((ac + 1 : ℕ) : ℤ)
        ⟨false, np, a.payload⟩ :: muxSpecAmended (v :: vs) as vp np vc (ac + 1)
termination_by vs as vp ap vc ac => vs.length + as.length

/-! ## Audio processor, speed path — `audio_processor.cpp` (part_005).

Sample values (C++ `float`) are modelled as `ℚ`; the claims about this
stage concern only sample counts and timestamps, never rounding of sample
values.  SoundTouch is the spec's black box: a run is parameterized by the
sequence of interleaved batches its `receiveSamples` delivers — each batch
a flat list of `received · channels` floats — first during frame
processing, then during `flush()`.  The ring buffer is
`AudioRingBuffer(1536, channels, sample_rate)` as created by
`initialize_speed_processing` (line 482). -/

/-- An output `AVFrame` of the audio processor as `create_output_frame`
(lines 502–534) builds it: `nb_samples`, `pts`, planar float layout with
the first two planes deinterleaved from the packed scratch frame for 1 or
2 channels (other channel counts leave the planes unfilled). -/
structure AFrame where
  nbSamples : ℕ
  pts : ℤ
  sampleRate : ℕ
  channels : ℕ
  dataL : List ℚ
  dataR : List ℚ
deriving Repr, DecidableEq

/-- `create_output_frame(samples, num_samples, pts)`. -/
def createOutputFrame (channels sampleRate : ℕ) (samples : List ℚ)
    (numSamples : ℕ) (pts : ℤ) : AFrame :=
  { nbSamples := numSamples, pts := pts, sampleRate := sampleRate,
    channels := channels,
    dataL :=
      if channels = 1 then (List.range numSamples).map (samples.getD · 0)
      else if channels = 2 then
        (List.range numSamples).map (fun i => samples.getD (2 * i) 0)
      else [],
    dataR :=
      if channels = 2 then
        (List.range numSamples).map (fun i => samples.getD (2 * i + 1) 0)
      else [] }

/-- `AudioRingBuffer` (lines 142–260): fixed circular storage of
`frame_size · channels · 4` floats with write/read positions and an
available-sample count. -/
structure RingBuf where
  buffer : Array ℚ
  frameSize : ℕ
  channels : ℕ
  writePos : ℕ
  readPos : ℕ
  avail : ℕ
deriving Repr, DecidableEq

/-- The constructor: `buffer_.resize(frame_size * channels * 4, 0.0f)`. -/
def RingBuf.create (frameSize channels : ℕ) : RingBuf :=
  { buffer := Array.mkArray (frameSize * channels * 4) 0,
    frameSize := frameSize, channels := channels,
    writePos := 0, readPos := 0, avail := 0 }

/-- `write_samples` (lines 176–202): reject if the batch would overflow,
else copy all `flat.length` floats (the caller passes
`received · channels` interleaved samples) with wraparound and bump
`available_`. -/
def RingBuf.writeSamples (rb : RingBuf) (flat : List ℚ) : RingBuf × Bool :=
  if rb.buffer.size < rb.avail + flat.length then (rb, false)
  else
    let rb' := flat.foldl
      (fun r x =>
        { r with buffer := r.buffer.setD r.writePos x,
                 writePos := (r.writePos + 1) % r.buffer.size }) rb
    ({ rb' with avail := rb.avail + flat.length }, true)

/-- `read_frame` (lines 214–242): all-or-nothing — `none` when fewer than
`frame_size · channels` samples are available, otherwise dequeue exactly
that many (sequential reads with wraparound, here written in closed
form). -/
def RingBuf.readFrame (rb : RingBuf) : Option (List ℚ × RingBuf) :=
  let total := rb.frameSize * rb.channels
  if rb.avail < total then none
  else
    some ((List.range total).map
        (fun i => rb.buffer.getD ((rb.readPos + i) % rb.buffer.size) 0),
      { rb with readPos := (rb.readPos + total) % rb.buffer.size,
                avail := rb.avail - total })

/-- `available_samples` (lines 244–247). -/
def RingBuf.availableSamples (rb : RingBuf) : ℕ :=
  rb.avail / rb.channels

/-- `clear` (lines 254–260). -/
def RingBuf.clear (rb : RingBuf) : RingBuf :=
  { rb with buffer := Array.mkArray rb.buffer.size 0,
            writePos := 0, readPos := 0, avail := 0 }

/-- Mutable audio-processor state for the speed path: the ring buffer and
`processed_samples_count_` (0 in the constructor and for the run of
interest). -/
structure APState where
  rb : RingBuf
  processedSamplesCount : ℕ
deriving Repr, DecidableEq

/-- The frame-draining loop
(`while (ring_buffer_->read_frame(frame_buffer.data(), actual_samples))`,
lines 588–600 and 710–721): each drained full frame becomes an output
frame with `nb_samples = actual_samples` (always `frame_size_ = 1536`),
`pts = processed_samples_count_`, after which the counter advances by
`actual_samples`.  Each successful read consumes
`frameSize · channels ≥ 1` available samples (for positive sizes), so
`avail` steps of fuel exhaust the loop; the theorems below hold for every
fuel. -/
def drainFrames (sampleRate : ℕ) : ℕ → APState → APState × List AFrame
  | 0, st => (st, [])
  | fuel + 1, st =>
      match st.rb.readFrame with
      | none => (st, [])
      | some (samples, rb') =>
          let fr := createOutputFrame st.rb.channels sampleRate samples
            st.rb.frameSize (st.processedSamplesCount : ℤ)
          let r := drainFrames sampleRate fuel
            ⟨rb', st.processedSamplesCount + st.rb.frameSize⟩
          (r.1, fr :: r.2)

/-- One `receiveSamples` batch inside
`process_samples_through_soundtouch_with_frame_pts` (lines 571–604): write
the batch into the ring buffer — a rejected write logs and `continue`s,
skipping the drain — then drain all full frames. -/
def processBatch (sampleRate : ℕ) (st : APState) (flat : List ℚ) :
    APState × List AFrame :=
  let w := st.rb.writeSamples flat
  if w.2 then drainFrames sampleRate w.1.avail ⟨w.1, st.processedSamplesCount⟩
  else (st, [])

/-- One `receiveSamples` batch inside `flush` (lines 702–722): identical,
except the `write_samples` return value is IGNORED — the drain runs either
way. -/
def flushBatch (sampleRate : ℕ) (st : APState) (flat : List ℚ) :
    APState × List AFrame :=
  let w := st.rb.writeSamples flat
  drainFrames sampleRate w.1.avail ⟨w.1, st.processedSamplesCount⟩

def runBatches (sampleRate : ℕ)
    (step : ℕ → APState → List ℚ → APState × List AFrame) :
    List (List ℚ) → APState → APState × List AFrame
  | [], st => (st, [])
  | b :: rest, st =>
      let r := step sampleRate st b
      let r2 := runBatches sampleRate step rest r.1
      (r2.1, r.2 ++ r2.2)

/-- The tail of `flush` (lines 724–752): if `0 < remaining < 1536` samples
per channel are left in the ring buffer, read them out, zero-pad to a full
`1536`-sample frame, clear the buffer, and emit it with
`pts = processed_samples_count_`; the counter advances by 1536. -/
def flushResidual (sampleRate : ℕ) (st : APState) : APState × List AFrame :=
  let remaining := st.rb.availableSamples
  if 0 < remaining ∧ remaining < 1536 then
    let padded := (List.range (1536 * st.rb.channels)).map
      (fun i =>
        if i < remaining * st.rb.channels then
          st.rb.buffer.getD ((st.rb.readPos + i) % st.rb.buffer.size) 0
        else 0)
    let fr := createOutputFrame st.rb.channels sampleRate padded 1536
      (st.processedSamplesCount : ℤ)
    (⟨st.rb.clear, st.processedSamplesCount + 1536⟩, [fr])
  else
    (st, [])

/-- A whole speed-change run of the audio processor: the ring buffer is
created as `AudioRingBuffer(1536, channels, sample_rate)`
(`initialize_speed_processing`, line 482), every batch SoundTouch delivers
during frame processing is handled by `processBatch`, every batch it
delivers during `flush()` by `flushBatch`, and the padded residual frame
closes the stream. -/
def audioSpeedRun (sampleRate channels : ℕ) (batches flushBatches : List (List ℚ)) :
    APState × List AFrame :=
  let st0 : APState := ⟨RingBuf.create 1536 channels, 0⟩
  let r1 := runBatches sampleRate processBatch batches st0
  let r2 := runBatches sampleRate flushBatch flushBatches r1.1
  let r3 := flushResidual sampleRate r2.1
  (r3.1, r1.2 ++ r2.2 ++ r3.2)

end Transcoder

namespace Transcoder

/-! # Claim theorems (first group) -/

set_option maxRecDepth 4000 in
/-- C4 counterexample: the claim says every media queue has a required
finite capacity and `push` on a queue at capacity does not append.  The
constructor takes no capacity, and pushing 257 units onto a fresh queue
yields size 257 — above even the spec's largest suggested capacity (256),
with the 257th push having appended onto a queue of size 256. -/
theorem queue_capacity_counterexample :
    (TSQueue.pushAll (TSQueue.empty (α := ℕ)) (List.range 257)).size = 257 ∧
    (TSQueue.pushAll (TSQueue.empty (α := ℕ)) (List.range 256)).size = 256 ∧
    (TSQueue.push (TSQueue.pushAll (TSQueue.empty (α := ℕ)) (List.range 256)) 256).size = 257 := by
  have h256 := TSQueue.pushAll_size (TSQueue.empty (α := ℕ)) (List.range 256) rfl
  have h257 := TSQueue.pushAll_size (TSQueue.empty (α := ℕ)) (List.range 257) rfl
  have hfin : (TSQueue.pushAll (TSQueue.empty (α := ℕ)) (List.range 256)).finished = false := by
    have : ∀ (vs : List ℕ) (q : TSQueue ℕ),
        (TSQueue.pushAll q vs).finished = q.finished := by
      intro vs
      induction vs with
      | nil => intro q; rfl
      | cons v vs ih =>
          intro q
          simp only [TSQueue.pushAll, List.foldl_cons] at ih ⊢
          rw [ih]
          simp [TSQueue.push]
          split <;> rfl
    exact this _ _
  refine ⟨?_, ?_, ?_⟩
  · simpa [TSQueue.empty, TSQueue.size] using h257
  · simpa [TSQueue.empty, TSQueue.size] using h256
  · have := TSQueue.push_items_of_not_finished _ (256 : ℕ) hfin
    simp only [TSQueue.size, this, List.length_append, List.length_singleton]
    simpa [TSQueue.empty, TSQueue.size] using h256

/-- C4 amended: the queue is constructed without any capacity parameter and
`push` appends one unit unconditionally whenever `finish()` has not been
called (and is a no-op afterwards); the queue size is not bounded by any
configured capacity. -/
theorem queue_push_unbounded {α : Type} (q : TSQueue α) (v : α)
    (h : q.finished = false) :
    (q.push v).size = q.size + 1 ∧
    ∀ q' : TSQueue α, q'.finished = true → q'.push v = q' := by
  constructor
  · simp [TSQueue.size, TSQueue.push_items_of_not_finished q v h]
  · intro q' h'
    simp [TSQueue.push, h']

/-- C4 witness for `queue_push_unbounded` at a concrete queue. -/
theorem queue_push_unbounded_witness :
    (TSQueue.empty (α := ℕ)).finished = false ∧
    ((TSQueue.empty (α := ℕ)).push 0).size = (TSQueue.empty (α := ℕ)).size + 1 :=
  ⟨by decide, (queue_push_unbounded TSQueue.empty 0 (by decide)).1⟩

/-- C8 counterexample: the claim says validation accepts `speed_factor`
exactly at the bound 0.1, but the source check `speed_factor <= 0.1` rejects
0.1 itself. -/
theorem speed_validation_counterexample :
    validateSpeedFactor (1/10) = false := by
  simp [validateSpeedFactor]

/-- C8 amended: validation accepts exactly the half-open interval
`(0.1, 5.0]` — the upper bound 5.0 passes, the lower bound 0.1 itself fails
(the source rejects `speed_factor <= 0.1`), and everything below 0.1 or
above 5.0 fails. -/
theorem speed_validation_range (s : ℚ) :
    validateSpeedFactor s = true ↔ (1/10 < s ∧ s ≤ 5) := by
  simp [validateSpeedFactor, not_le, not_lt]

/-- C3 counterexample: at speed 1.7 and input frame 58 the source gate
drops the frame (it keeps iff `58 % 100 < trunc(100/1.7) = 58`), while the
claim's pattern with `round(100/1.7) = 59` keeps it. -/
theorem speed_gate_counterexample :
    shouldProcessFrame true (17/10) 58 = false ∧
    specKeepPattern (17/10) 58 = true := by
  have hfl : (⌊(100 : ℚ) / (17/10)⌋ : ℤ) = 58 := by
    norm_num [Int.floor_eq_iff]
  have hrd : round ((100 : ℚ) / (17/10)) = 59 := by
    norm_num [round_eq, Int.floor_eq_iff]
  constructor
  · simp only [shouldProcessFrame, hfl]
    norm_num
  · simp only [specKeepPattern, hrd]
    norm_num

/-- C3 amended: for `speed > 1.0` the gate keeps frame `k` (1-based input
index) iff `k % 3 ≠ 0` at speed 1.5, iff `k` is odd at speed 2.0, and for
every other speed iff `k % 100 < trunc(100 / speed)` — the truncation
(equivalently floor, the quotient being positive) that
`static_cast<int>(100.0 / speed_factor)` computes, not the rounding the
claim stated. -/
theorem speed_gate_floor_pattern (s : ℚ) (k : ℕ) (hs : 1 < s) :
    shouldProcessFrame true s k = true ↔
      ((s = 3/2 ∧ k % 3 ≠ 0) ∨ (s = 2 ∧ k % 2 = 1) ∨
       (s ≠ 3/2 ∧ s ≠ 2 ∧ (k : ℤ) % 100 < ⌊(100 : ℚ) / s⌋)) := by
  by_cases h32 : s = 3/2
  · simp [shouldProcessFrame, hs, h32]
    norm_num
  · by_cases h2 : s = 2
    · simp [shouldProcessFrame, hs, h32, h2]
      norm_num
    · simp [shouldProcessFrame, hs, h32, h2]

/-- C3 witness: `speed_gate_floor_pattern` applied at speed 3, frame 1
(kept: `1 % 100 = 1 < ⌊100/3⌋ = 33`). -/
theorem speed_gate_floor_pattern_witness :
    (1 : ℚ) < 3 ∧
    (shouldProcessFrame true 3 1 = true ↔
      (((3 : ℚ) = 3/2 ∧ 1 % 3 ≠ 0) ∨ ((3 : ℚ) = 2 ∧ 1 % 2 = 1) ∨
       ((3 : ℚ) ≠ 3/2 ∧ (3 : ℚ) ≠ 2 ∧ ((1 : ℕ) : ℤ) % 100 < ⌊(100 : ℚ) / 3⌋))) :=
  ⟨by decide, speed_gate_floor_pattern 3 1 (by decide)⟩

/-- C9 counterexample: a container with two video streams.  The probe
(`get_stream_info`) selects the first (index 0), the dispatch loop selects
the last (index 1), and the demuxer run pushes the packet of stream 1, not
stream 0, onto the video queue. -/
theorem demux_first_stream_counterexample :
    (demuxSelect [StreamKind.video, StreamKind.video] true true).1 = some 1 ∧
    (probeSelect [StreamKind.video, StreamKind.video]).1 = some 0 ∧
    (demuxRun
        { openOk := true, findInfoOk := true,
          streams := [StreamKind.video, StreamKind.video],
          packets := [⟨0, 10⟩, ⟨1, 11⟩], maxFrames := 0,
          enableV := true, enableA := true }
        TSQueue.empty TSQueue.empty).1.items = [⟨1, 11⟩] := by
  refine ⟨?_, ?_, ?_⟩ <;> decide

theorem selectAux_agree :
    ∀ (streams : List StreamKind) (i : ℕ) (v a : Option ℕ),
      (v ≠ none → countKind StreamKind.video streams = 0) →
      (a ≠ none → countKind StreamKind.audio streams = 0) →
      countKind StreamKind.video streams ≤ 1 →
      countKind StreamKind.audio streams ≤ 1 →
      demuxSelectAux true true i streams (v, a) = probeSelectAux i streams (v, a) := by
  intro streams
  induction streams with
  | nil => intro i v a _ _ _ _; rfl
  | cons s rest ih =>
      intro i v a hv ha hcv hca
      cases s with
      | video =>
          have hcnt : countKind StreamKind.video (StreamKind.video :: rest) =
              countKind StreamKind.video rest + 1 := by
            simp [countKind]
          have hcnta : countKind StreamKind.audio (StreamKind.video :: rest) =
              countKind StreamKind.audio rest := by
            simp [countKind]
          cases v with
          | none =>
              have hd : demuxSelectAux true true i
                  (StreamKind.video :: rest) (none, a) =
                  demuxSelectAux true true (i + 1) rest (some i, a) := by
                simp [demuxSelectAux]
              have hp : probeSelectAux i (StreamKind.video :: rest) (none, a) =
                  probeSelectAux (i + 1) rest (some i, a) := by
                simp [probeSelectAux]
              rw [hd, hp]
              apply ih
              · intro _
                rw [hcnt] at hcv
                omega
              · intro hne
                have := ha hne
                rw [hcnta] at this
                exact this
              · rw [hcnt] at hcv
                omega
              · rw [hcnta] at hca
                exact hca
          | some j =>
              exfalso
              have := hv (by simp)
              rw [hcnt] at this
              omega
      | audio =>
          have hcnt : countKind StreamKind.audio (StreamKind.audio :: rest) =
              countKind StreamKind.audio rest + 1 := by
            simp [countKind]
          have hcntv : countKind StreamKind.video (StreamKind.audio :: rest) =
              countKind StreamKind.video rest := by
            simp [countKind]
          cases a with
          | none =>
              have hd : demuxSelectAux true true i
                  (StreamKind.audio :: rest) (v, none) =
                  demuxSelectAux true true (i + 1) rest (v, some i) := by
                simp [demuxSelectAux]
              have hp : probeSelectAux i (StreamKind.audio :: rest) (v, none) =
                  probeSelectAux (i + 1) rest (v, some i) := by
                simp [probeSelectAux]
              rw [hd, hp]
              apply ih
              · intro hne
                have := hv hne
                rw [hcntv] at this
                exact this
              · intro _
                rw [hcnt] at hca
                omega
              · rw [hcntv] at hcv
                exact hcv
              · rw [hcnt] at hca
                omega
          | some j =>
              exfalso
              have := ha (by simp)
              rw [hcnt] at this
              omega
      | other =>
          have hcntv : countKind StreamKind.video (StreamKind.other :: rest) =
              countKind StreamKind.video rest := by
            simp [countKind]
          have hcnta : countKind StreamKind.audio (StreamKind.other :: rest) =
              countKind StreamKind.audio rest := by
            simp [countKind]
          have hd : demuxSelectAux true true i
              (StreamKind.other :: rest) (v, a) =
              demuxSelectAux true true (i + 1) rest (v, a) := by
            simp [demuxSelectAux]
          have hp : probeSelectAux i (StreamKind.other :: rest) (v, a) =
              probeSelectAux (i + 1) rest (v, a) := by
            simp [probeSelectAux]
          rw [hd, hp]
          apply ih
          · intro hne
            have := hv hne
            rw [hcntv] at this
            exact this
          · intro hne
            have := ha hne
            rw [hcnta] at this
            exact this
          · rw [hcntv] at hcv
            exact hcv
          · rw [hcnta] at hca
            exact hca

/-- C9 amended: the packet-dispatch loop selects the LAST video and LAST
audio stream of the container (no `== -1` guard), which coincides with the
probe's first-stream selection exactly when the container holds at most one
stream of each kind — the supported single-video/single-audio inputs. -/
theorem demux_dispatch_matches_probe (streams : List StreamKind)
    (hv : countKind StreamKind.video streams ≤ 1)
    (ha : countKind StreamKind.audio streams ≤ 1) :
    demuxSelect streams true true = probeSelect streams :=
  selectAux_agree streams 0 none none (by simp) (by simp) hv ha

/-! ### C1: the video processor's output timeline -/

/-- `seqFrom base fs`: the frames `fs` carry consecutive timestamps
`base, base+1, …`, each with `dts = pts` and `duration = 1`. -/
def seqFrom (base : ℤ) (fs : List VFrame) : Prop :=
  ∀ (j : ℕ) (h : j < fs.length),
    fs[j].pts = base + j ∧ fs[j].dts = base + j ∧ fs[j].duration = 1

theorem seqFrom_nil (base : ℤ) : seqFrom base [] := by
  intro j h
  simp at h

theorem seqFrom_cons {base : ℤ} {f : VFrame} {fs : List VFrame}
    (hp : f.pts = base) (hd : f.dts = base) (hu : f.duration = 1)
    (hs : seqFrom (base + 1) fs) : seqFrom base (f :: fs) := by
  intro j h
  cases j with
  | zero => simpa using ⟨hp, hd, hu⟩
  | succ j =>
      have hj : j < fs.length := by simpa using h
      have := hs j hj
      simp only [List.getElem_cons_succ]
      refine ⟨?_, ?_, this.2.2⟩
      · rw [this.1]; push_cast; ring
      · rw [this.2.1]; push_cast; ring

theorem seqFrom_append {base : ℤ} {xs ys : List VFrame}
    (hx : seqFrom base xs) (hy : seqFrom (base + xs.length) ys) :
    seqFrom base (xs ++ ys) := by
  induction xs generalizing base with
  | nil => simpa using hy
  | cons f fs ih =>
      have h0 := hx 0 (by simp)
      simp only [List.getElem_cons_zero] at h0
      refine seqFrom_cons (by simpa using h0.1) (by simpa using h0.2.1)
        h0.2.2 ?_
      apply ih
      · intro j hj
        have := hx (j + 1) (by simpa using Nat.succ_lt_succ hj)
        simp only [List.getElem_cons_succ] at this
        refine ⟨?_, ?_, this.2.2⟩
        · rw [this.1]; push_cast; ring
        · rw [this.2.1]; push_cast; ring
      · have : (base + 1) + (fs.length : ℤ) = base + ((f :: fs).length : ℤ) := by
          push_cast [List.length_cons]; ring
        rw [this]
        exact hy

theorem emitDuplicates_spec (n : ℕ) :
    ∀ (st : VPState) (out : VFrame),
      (emitDuplicates n st out).1.totalOutputFrames = st.totalOutputFrames + n ∧
      (emitDuplicates n st out).1.speEnabled = st.speEnabled ∧
      (emitDuplicates n st out).1.frameCounter = st.frameCounter ∧
      (emitDuplicates n st out).2.length = n ∧
      seqFrom (st.totalOutputFrames : ℤ) (emitDuplicates n st out).2 := by
  induction n with
  | zero =>
      intro st out
      exact ⟨rfl, rfl, rfl, rfl, seqFrom_nil _⟩
  | succ n ih =>
      intro st out
      have h := ih { st with totalOutputFrames := st.totalOutputFrames + 1 } out
      simp only [emitDuplicates]
      refine ⟨?_, h.2.1, h.2.2.1, ?_, ?_⟩
      · simp only [h.1]
        omega
      · simp [h.2.2.2.1]
      · refine seqFrom_cons rfl rfl rfl ?_
        have := h.2.2.2.2
        simpa using this

theorem processCore_spec (p : VProcessor) (E : ExtOps) (st : VPState)
    (inp : VFrame) :
    (p.processCore E st inp).st.totalOutputFrames =
      st.totalOutputFrames + (p.processCore E st inp).output.toList.length ∧
    (p.processCore E st inp).st.speEnabled = st.speEnabled ∧
    (p.processCore E st inp).st.frameCounter = st.frameCounter ∧
    seqFrom (st.totalOutputFrames : ℤ) (p.processCore E st inp).output.toList := by
  unfold VProcessor.processCore
  split
  · exact ⟨rfl, rfl, rfl, seqFrom_nil _⟩
  · refine ⟨rfl, rfl, rfl, ?_⟩
    refine seqFrom_cons rfl rfl rfl (seqFrom_nil _)

theorem processFrame_spec (p : VProcessor) (E : ExtOps) (st : VPState)
    (inp : VFrame) :
    (p.processFrame E st inp).st.totalOutputFrames =
      st.totalOutputFrames + (p.processFrame E st inp).output.toList.length ∧
    (p.processFrame E st inp).st.speEnabled = st.speEnabled ∧
    seqFrom (st.totalOutputFrames : ℤ) (p.processFrame E st inp).output.toList := by
  unfold VProcessor.processFrame
  split
  · split
    · have h := processCore_spec p E
        { st with frameCounter := st.frameCounter + 1 } inp
      exact ⟨h.1, h.2.1, h.2.2.2⟩
    · exact ⟨rfl, rfl, seqFrom_nil _⟩
  · have h := processCore_spec p E st inp
    exact ⟨h.1, h.2.1, h.2.2.2⟩

theorem stepInput_spec (p : VProcessor) (E : ExtOps) (st : VPState)
    (inp : VFrame) :
    (p.stepInput E st inp).1.totalOutputFrames =
      st.totalOutputFrames + (p.stepInput E st inp).2.length ∧
    (p.stepInput E st inp).1.speEnabled = st.speEnabled ∧
    seqFrom (st.totalOutputFrames : ℤ) (p.stepInput E st inp).2 := by
  have hpf := processFrame_spec p E st inp
  unfold VProcessor.stepInput
  cases hout : (p.processFrame E st inp).output with
  | none =>
      simp only [hout]
      rw [hout] at hpf
      simpa using ⟨hpf.1, hpf.2.1, seqFrom_nil _⟩
  | some out =>
      rw [hout] at hpf
      simp only [hout]
      split
      · have hd := emitDuplicates_spec (dupCount p.params.speedFactor)
          (p.processFrame E st inp).st out
        refine ⟨?_, ?_, ?_⟩
        · simp only [List.length_cons]
          rw [hd.1, hpf.1]
          simp [hd.2.2.2.1]
          omega
        · rw [hd.2.1, hpf.2.1]
        · have hseq := hpf.2.2
          have h0 := hseq 0 (by simp)
          simp only [Option.toList_some, List.getElem_cons_zero] at h0
          refine seqFrom_cons (by simpa using h0.1) (by simpa using h0.2.1)
            h0.2.2 ?_
          have := hd.2.2.2.2
          rw [hpf.1] at this
          simpa using this
      · refine ⟨?_, hpf.2.1, ?_⟩
        · simpa using hpf.1
        · simpa using hpf.2.2

theorem runLoop_spec (p : VProcessor) (E : ExtOps) :
    ∀ (inputs : List VFrame) (st : VPState),
      (p.runLoop E inputs st).1.totalOutputFrames =
        st.totalOutputFrames + (p.runLoop E inputs st).2.length ∧
      seqFrom (st.totalOutputFrames : ℤ) (p.runLoop E inputs st).2 := by
  intro inputs
  induction inputs with
  | nil =>
      intro st
      exact ⟨by simp [VProcessor.runLoop], seqFrom_nil _⟩
  | cons f rest ih =>
      intro st
      have hs := stepInput_spec p E st f
      have hr := ih (p.stepInput E st f).1
      simp only [VProcessor.runLoop]
      constructor
      · rw [hr.1, hs.1]
        simp [List.length_append]
        omega
      · refine seqFrom_append hs.2.2 ?_
        have h2 := hr.2
        rw [hs.1] at h2
        push_cast at h2
        exact h2

/-- C1: every frame the video processor thread emits — originals and
duplicates alike — is stamped from the single counter
`total_output_frames_`, which is then incremented, with `pkt_dts = pts`
and `duration = 1`; consequently the emitted pts sequence is exactly
`0, 1, 2, …` (the k-th emitted frame, 0-based, has `pts = k`).  This holds
for every parameter set, every black-box scaler/GPU behaviour, and every
input sequence. -/
theorem video_output_pts_dense (p : VProcessor) (E : ExtOps) (initOk : Bool)
    (inputs : List VFrame) :
    (runVideoThread p E initOk inputs).1.map VFrame.pts =
      (List.range (runVideoThread p E initOk inputs).1.length).map
        Int.ofNat ∧
    (runVideoThread p E initOk inputs).1.map VFrame.dts =
      (List.range (runVideoThread p E initOk inputs).1.length).map
        Int.ofNat ∧
    (runVideoThread p E initOk inputs).1.map VFrame.duration =
      List.replicate (runVideoThread p E initOk inputs).1.length 1 := by
  unfold runVideoThread
  split
  · simp
  · have h := (runLoop_spec p E inputs p.initState).2
    have hb : ((p.initState).totalOutputFrames : ℤ) = 0 := by
      simp [VProcessor.initState]
    rw [hb] at h
    set out := (p.runLoop E inputs p.initState).2 with hout
    refine ⟨?_, ?_, ?_⟩
    · apply List.ext_getElem
      · simp
      · intro j h1 h2
        have := (h j (by simpa using h1)).1
        simpa using this
    · apply List.ext_getElem
      · simp
      · intro j h1 h2
        have := (h j (by simpa using h1)).2.1
        simpa using this
    · apply List.ext_getElem
      · simp
      · intro j h1 h2
        have := (h j (by simpa using h1)).2.2
        simpa using this

/-! ### C10: `process_frame` never writes its input frame -/

/-- C10: a `process_frame` call leaves the input frame bitwise unchanged —
pixel planes, dimensions, format and timestamps — whether it succeeds,
drops the frame, or fails: every write in the source (rotation, scaling,
grayscale, brightness/contrast, blur, sharpen, timestamping) targets the
separately allocated output frame.  The embedding threads the input frame
through every branch of the call exactly as the source leaves it. -/
theorem process_frame_input_unchanged (p : VProcessor) (E : ExtOps)
    (st : VPState) (inp : VFrame) :
    (p.processFrame E st inp).inputAfter = inp := by
  unfold VProcessor.processFrame VProcessor.processCore
  repeat' split
  all_goals rfl

/-! ### C5: fatal failure paths and queue finishing -/

/-- C5 (code bug, evaluated at the failing inputs): when
`avformat_open_input` fails, and likewise when
`avformat_find_stream_info` fails, `demux_thread_func_with_params` returns
leaving BOTH output queues unfinished and empty (lines 82–92 `return`
without `finish()`), and when `VideoProcessor::initialize` fails the video
processing thread returns leaving its output queue unfinished (lines
1323–1327) — contrary to the claim that every fatal failure path finishes
all output queues.  Downstream consumers of an unfinished queue block in
`pop` forever. -/
theorem fatal_failure_leaves_queues_unfinished :
    (demuxRun
        { openOk := false, findInfoOk := true, streams := [StreamKind.video],
          packets := [], maxFrames := 0, enableV := true, enableA := true }
        TSQueue.empty TSQueue.empty).1.finished = false ∧
    (demuxRun
        { openOk := false, findInfoOk := true, streams := [StreamKind.video],
          packets := [], maxFrames := 0, enableV := true, enableA := true }
        TSQueue.empty TSQueue.empty).2.finished = false ∧
    (demuxRun
        { openOk := true, findInfoOk := false, streams := [StreamKind.video],
          packets := [], maxFrames := 0, enableV := true, enableA := true }
        TSQueue.empty TSQueue.empty).1.finished = false ∧
    (demuxRun
        { openOk := true, findInfoOk := false, streams := [StreamKind.video],
          packets := [], maxFrames := 0, enableV := true, enableA := true }
        TSQueue.empty TSQueue.empty).2.finished = false ∧
    (runVideoThread
        (VProcessor.mk'
          { rotationAngle := 0, enableBlur := false, enableSharpen := false,
            enableGrayscale := false, brightness := 1, contrast := 1,
            enableSpeedChange := false, speedFactor := 1,
            outputWidth := 0, outputHeight := 0 }
          8 8 AV_PIX_FMT_YUV420P)
        { gpuOk := true, rotPlanes := fun f => (f.dataY, f.dataU, f.dataV),
          swsOk := true, swsPlanes := fun f => (f.dataY, f.dataU, f.dataV),
          allocLinesizeY := 8, allocLinesizeUV := 4 }
        false []).2 = false :=
  ⟨rfl, rfl, rfl, rfl, rfl⟩

/-! ### C6: decoder flush behaviour -/

/-- C6 (code bug, evaluated at the failing input): with a codec of decode
delay 1 and a single input packet, the AUDIO decoder flushes (null packet
then drain) and emits the buffered frame, but the VIDEO decoder breaks out
of its loop on input termination without ever submitting the null flush
packet, emitting nothing — the frame held inside the codec is lost.  The
claim requires both decoders to flush and drain. -/
theorem video_decoder_missing_flush :
    videoDecodeThread 1 [7] = ([], true) ∧
    audioDecodeThread 1 [7] = ([7], true) := by
  constructor <;> decide

/-! ### C2: audio processor output frames -/

/-- `fixedSeq base fs`: every frame in `fs` carries exactly 1536 samples
and the `j`-th frame's pts is `base + 1536 ·j` — i.e. pts is the running
sample count. -/
def fixedSeq (base : ℤ) (fs : List AFrame) : Prop :=
  ∀ (j : ℕ) (h : j < fs.length),
    fs[j].nbSamples = 1536 ∧ fs[j].pts = base + 1536 * j

theorem fixedSeq_nil (base : ℤ) : fixedSeq base [] := by
  intro j h
  simp at h

theorem fixedSeq_cons {base : ℤ} {f : AFrame} {fs : List AFrame}
    (hn : f.nbSamples = 1536) (hp : f.pts = base)
    (hs : fixedSeq (base + 1536) fs) : fixedSeq base (f :: fs) := by
  intro j h
  cases j with
  | zero => simpa using ⟨hn, hp⟩
  | succ j =>
      have hj : j < fs.length := by simpa using h
      have := hs j hj
      simp only [List.getElem_cons_succ]
      refine ⟨this.1, ?_⟩
      rw [this.2]
      push_cast
      ring

theorem fixedSeq_append {base : ℤ} {xs ys : List AFrame}
    (hx : fixedSeq base xs) (hy : fixedSeq (base + 1536 * xs.length) ys) :
    fixedSeq base (xs ++ ys) := by
  induction xs generalizing base with
  | nil => simpa using hy
  | cons f fs ih =>
      have h0 := hx 0 (by simp)
      simp only [List.getElem_cons_zero] at h0
      refine fixedSeq_cons h0.1 (by simpa using h0.2) ?_
      apply ih
      · intro j hj
        have := hx (j + 1) (by simpa using Nat.succ_lt_succ hj)
        simp only [List.getElem_cons_succ] at this
        refine ⟨this.1, ?_⟩
        rw [this.2]
        push_cast
        ring
      · have heq : (base + 1536) + 1536 * (fs.length : ℤ) =
            base + 1536 * ((f :: fs).length : ℤ) := by
          push_cast [List.length_cons]
          ring
        rw [heq]
        exact hy

theorem writeFold_fields :
    ∀ (flat : List ℚ) (rb : RingBuf),
      (flat.foldl (fun r x =>
          { r with buffer := r.buffer.setD r.writePos x,
                   writePos := (r.writePos + 1) % r.buffer.size }) rb).frameSize
        = rb.frameSize ∧
      (flat.foldl (fun r x =>
          { r with buffer := r.buffer.setD r.writePos x,
                   writePos := (r.writePos + 1) % r.buffer.size }) rb).channels
        = rb.channels := by
  intro flat
  induction flat with
  | nil => intro rb; exact ⟨rfl, rfl⟩
  | cons x xs ih =>
      intro rb
      simpa using ih _

theorem writeSamples_fields (rb : RingBuf) (flat : List ℚ) :
    ((rb.writeSamples flat).1).frameSize = rb.frameSize ∧
    ((rb.writeSamples flat).1).channels = rb.channels := by
  unfold RingBuf.writeSamples
  split
  · exact ⟨rfl, rfl⟩
  · have h := writeFold_fields flat rb
    exact ⟨h.1, h.2⟩

theorem drainFrames_spec (sr : ℕ) :
    ∀ (fuel : ℕ) (st : APState), st.rb.frameSize = 1536 →
      (drainFrames sr fuel st).1.rb.frameSize = 1536 ∧
      (drainFrames sr fuel st).1.processedSamplesCount =
        st.processedSamplesCount + 1536 * (drainFrames sr fuel st).2.length ∧
      fixedSeq (st.processedSamplesCount : ℤ) (drainFrames sr fuel st).2 := by
  intro fuel
  induction fuel with
  | zero =>
      intro st h
      exact ⟨h, by simp [drainFrames], fixedSeq_nil _⟩
  | succ fuel ih =>
      intro st h
      simp only [drainFrames]
      cases heq : st.rb.readFrame with
      | none =>
          exact ⟨h, by simp, fixedSeq_nil _⟩
      | some pr =>
          obtain ⟨samples, rb'⟩ := pr
          have hfs : rb'.frameSize = st.rb.frameSize := by
            simp only [RingBuf.readFrame] at heq
            split at heq
            · cases heq
            · have h2 := congrArg Prod.snd (Option.some.injEq _ _ |>.mp heq)
              simp at h2
              rw [← h2]
          have hrec := ih ⟨rb', st.processedSamplesCount + st.rb.frameSize⟩
            (by simpa [hfs] using h)
          refine ⟨hrec.1, ?_, ?_⟩
          · simp only [List.length_cons]
            rw [hrec.2.1]
            simp [h]
            ring
          · refine fixedSeq_cons (by simp [createOutputFrame, h]) ?_ ?_
            · simp [createOutputFrame]
            · simp only [h]
              have := hrec.2.2
              simp only [h] at this
              push_cast at this
              exact this

theorem processBatch_spec (sr : ℕ) (st : APState) (b : List ℚ)
    (h : st.rb.frameSize = 1536) :
    (processBatch sr st b).1.rb.frameSize = 1536 ∧
    (processBatch sr st b).1.processedSamplesCount =
      st.processedSamplesCount + 1536 * (processBatch sr st b).2.length ∧
    fixedSeq (st.processedSamplesCount : ℤ) (processBatch sr st b).2 := by
  simp only [processBatch]
  split
  · exact drainFrames_spec sr _ _ (by simpa [(writeSamples_fields st.rb b).1] using h)
  · exact ⟨h, by simp, fixedSeq_nil _⟩

theorem flushBatch_spec (sr : ℕ) (st : APState) (b : List ℚ)
    (h : st.rb.frameSize = 1536) :
    (flushBatch sr st b).1.rb.frameSize = 1536 ∧
    (flushBatch sr st b).1.processedSamplesCount =
      st.processedSamplesCount + 1536 * (flushBatch sr st b).2.length ∧
    fixedSeq (st.processedSamplesCount : ℤ) (flushBatch sr st b).2 := by
  simp only [flushBatch]
  exact drainFrames_spec sr _ _ (by simpa [(writeSamples_fields st.rb b).1] using h)

theorem runBatches_spec (sr : ℕ)
    (step : ℕ → APState → List ℚ → APState × List AFrame)
    (hstep : ∀ (st : APState) (b : List ℚ), st.rb.frameSize = 1536 →
      (step sr st b).1.rb.frameSize = 1536 ∧
      (step sr st b).1.processedSamplesCount =
        st.processedSamplesCount + 1536 * (step sr st b).2.length ∧
      fixedSeq (st.processedSamplesCount : ℤ) (step sr st b).2) :
    ∀ (batches : List (List ℚ)) (st : APState), st.rb.frameSize = 1536 →
      (runBatches sr step batches st).1.rb.frameSize = 1536 ∧
      (runBatches sr step batches st).1.processedSamplesCount =
        st.processedSamplesCount +
          1536 * (runBatches sr step batches st).2.length ∧
      fixedSeq (st.processedSamplesCount : ℤ) (runBatches sr step batches st).2 := by
  intro batches
  induction batches with
  | nil =>
      intro st h
      exact ⟨h, by simp [runBatches], fixedSeq_nil _⟩
  | cons b rest ih =>
      intro st h
      have hs := hstep st b h
      have hr := ih (step sr st b).1 hs.1
      simp only [runBatches]
      refine ⟨hr.1, ?_, ?_⟩
      · simp only [List.length_append]
        rw [hr.2.1, hs.2.1]
        ring
      · refine fixedSeq_append hs.2.2 ?_
        have h2 := hr.2.2
        rw [hs.2.1] at h2
        push_cast at h2
        exact h2

theorem flushResidual_spec (sr : ℕ) (st : APState) :
    (flushResidual sr st).1.processedSamplesCount =
      st.processedSamplesCount + 1536 * (flushResidual sr st).2.length ∧
    fixedSeq (st.processedSamplesCount : ℤ) (flushResidual sr st).2 := by
  simp only [flushResidual]
  split
  · refine ⟨by simp, ?_⟩
    exact fixedSeq_cons (by simp [createOutputFrame]) (by simp [createOutputFrame])
      (fixedSeq_nil _)
  · exact ⟨by simp, fixedSeq_nil _⟩

/-- C2: in every speed-change run of the audio processor — for every
channel count, sample rate, and every sequence of batches the black-box
tempo processor delivers during processing and during flush — every frame
pushed to the output queue has `nb_samples = 1536` (the AC3 encoder's
required frame size, `codec_context_->frame_size = 1536`), the final
residual frame being zero-padded up to 1536, and the `j`-th output frame's
pts equals `1536 ·j`, the total number of samples emitted in all earlier
output frames — independent of any input pts (no input timestamp enters
the computation). -/
theorem audio_output_fixed_frames (sampleRate channels : ℕ)
    (batches flushBatches : List (List ℚ)) :
    (audioSpeedRun sampleRate channels batches flushBatches).2.map
        AFrame.nbSamples =
      List.replicate
        (audioSpeedRun sampleRate channels batches flushBatches).2.length
        1536 ∧
    (audioSpeedRun sampleRate channels batches flushBatches).2.map
        AFrame.pts =
      (List.range
        (audioSpeedRun sampleRate channels batches flushBatches).2.length).map
        (fun j => ((1536 * j : ℕ) : ℤ)) := by
  have h1 := runBatches_spec sampleRate processBatch
    (fun st b h => processBatch_spec sampleRate st b h) batches
    ⟨RingBuf.create 1536 channels, 0⟩ rfl
  have h2 := runBatches_spec sampleRate flushBatch
    (fun st b h => flushBatch_spec sampleRate st b h) flushBatches
    _ h1.1
  have h3 := flushResidual_spec sampleRate
    (runBatches sampleRate flushBatch flushBatches
      (runBatches sampleRate processBatch batches
        ⟨RingBuf.create 1536 channels, 0⟩).1).1
  have hall : fixedSeq 0
      (audioSpeedRun sampleRate channels batches flushBatches).2 := by
    have hA : fixedSeq 0
        (runBatches sampleRate processBatch batches
          ⟨RingBuf.create 1536 channels, 0⟩).2 := by
      simpa using h1.2.2
    have hB : fixedSeq ((0 : ℤ) + 1536 *
        ((runBatches sampleRate processBatch batches
          ⟨RingBuf.create 1536 channels, 0⟩).2.length : ℤ))
        (runBatches sampleRate flushBatch flushBatches
          (runBatches sampleRate processBatch batches
            ⟨RingBuf.create 1536 channels, 0⟩).1).2 := by
      have hb := h2.2.2
      rw [h1.2.1] at hb
      push_cast at hb
      simpa using hb
    have hC : fixedSeq ((0 : ℤ) + 1536 *
        (((runBatches sampleRate processBatch batches
            ⟨RingBuf.create 1536 channels, 0⟩).2 ++
          (runBatches sampleRate flushBatch flushBatches
            (runBatches sampleRate processBatch batches
              ⟨RingBuf.create 1536 channels, 0⟩).1).2).length : ℤ))
        (flushResidual sampleRate
          (runBatches sampleRate flushBatch flushBatches
            (runBatches sampleRate processBatch batches
              ⟨RingBuf.create 1536 channels, 0⟩).1).1).2 := by
      have hc := h3.2
      rw [h2.2.1, h1.2.1] at hc
      push_cast at hc
      simp only [List.length_append]
      push_cast
      ring_nf at hc ⊢
      exact hc
    simp only [audioSpeedRun]
    exact fixedSeq_append (fixedSeq_append hA hB) hC
  constructor
  · apply List.ext_getElem
    · simp only [List.length_map, List.length_replicate]
    · intro j hj1 hj2
      have := (hall j (by simpa using hj1)).1
      simp only [List.getElem_map, List.getElem_replicate]
      exact this
  · apply List.ext_getElem
    · simp only [List.length_map, List.length_range]
    · intro j hj1 hj2
      have := (hall j (by simpa using hj1)).2
      simp only [List.getElem_map, List.getElem_range]
      rw [this]
      push_cast
      ring

/-! ### C7: muxer interleaving -/

theorem muxSpecAmended_length :
    ∀ (vs as : List EPacket) (vp ap : ℤ) (vc ac : ℕ),
      (muxSpecAmended vs as vp ap vc ac).length = vs.length + as.length := by
  intro vs
  induction vs with
  | nil =>
      intro as
      induction as with
      | nil =>
          intro vp ap vc ac
          simp [muxSpecAmended]
      | cons a as iha =>
          intro vp ap vc ac
          simp [muxSpecAmended, iha]
  | cons v vs ihv =>
      intro as
      induction as with
      | nil =>
          intro vp ap vc ac
          simp [muxSpecAmended, ihv]
      | cons a as iha =>
          intro vp ap vc ac
          simp only [muxSpecAmended]
          split
          · simp only [List.length_cons, ihv]
            omega
          · simp only [List.length_cons, iha]
            omega

theorem muxLoop_writes :
    ∀ (fuel : ℕ) (s : MuxState),
      (s.videoDone = true → s.vqueue = []) →
      (s.audioDone = true → s.aqueue = []) →
      s.vqueue.length + s.aqueue.length +
          ((if s.videoDone then 0 else 1) + (if s.audioDone then 0 else 1))
        ≤ fuel →
      (muxLoop fuel s).writes =
        s.writes ++ muxSpecAmended s.vqueue s.aqueue s.videoPts s.audioPts
          s.vcount s.acount := by
  intro fuel
  induction fuel with
  | zero =>
      intro s hv ha hm
      have hvd : s.videoDone = true := by
        cases h : s.videoDone
        · rw [h] at hm
          simp at hm
        · rfl
      have had : s.audioDone = true := by
        cases h : s.audioDone
        · rw [h] at hm
          simp at hm
        · rfl
      rw [hv hvd, ha had]
      simp [muxLoop, muxSpecAmended]
  | succ fuel ih =>
      intro s hv ha hm
      simp only [muxLoop]
      by_cases hvd : s.videoDone = true
      · by_cases had : s.audioDone = true
        · rw [if_neg (by simp [hvd, had])]
          rw [hv hvd, ha had]
          simp [muxSpecAmended]
        · have had' : s.audioDone = false := by
            simpa using had
          rw [if_pos (by simp [had'])]
          have hq := hv hvd
          rw [hvd, had', hq] at hm
          simp only [List.length_nil, if_true, if_false] at hm
          cases haq : s.aqueue with
          | nil =>
              have hs : muxStep s = { s with audioDone := true } := by
                simp [muxStep, hvd, had', haq]
              have hrec := ih { s with audioDone := true }
                (by intro _; simpa using hq)
                (by intro _; simpa using haq)
                (by simp [hvd, hq, haq])
              rw [hs, hrec]
              simp [hq, haq]
          | cons a as =>
              have hs : muxStep s =
                  { s with
                    aqueue := as,
                    acount := s.acount + 1,
                    audioPts := a.pts.getD ((s.acount + 1 : ℕ) : ℤ),
                    writes := s.writes ++
                      [⟨false, a.pts.getD ((s.acount + 1 : ℕ) : ℤ), a.payload⟩] } := by
                simp [muxStep, hvd, had', haq]
              have hrec := ih
                { s with
                  aqueue := as,
                  acount := s.acount + 1,
                  audioPts := a.pts.getD ((s.acount + 1 : ℕ) : ℤ),
                  writes := s.writes ++
                    [⟨false, a.pts.getD ((s.acount + 1 : ℕ) : ℤ), a.payload⟩] }
                (by intro _; simpa using hq)
                (by intro h; simp [had'] at h)
                (by
                  rw [haq] at hm
                  simp [hvd, had', hq]
                  simp at hm
                  omega)
              simp only [] at hrec
              rw [hs, hrec]
              rw [hq]
              simp only [muxSpecAmended]
              simp [List.append_assoc]
      · have hvd' : s.videoDone = false := by
          simpa using hvd
        rw [if_pos (by simp [hvd'])]
        by_cases had : s.audioDone = true
        · -- audio finished (queue empty): the muxer drains video
          have haq := ha had
          rw [hvd', had, haq] at hm
          simp only [List.length_nil, if_true, if_false] at hm
          cases hvq : s.vqueue with
          | nil =>
              have hs : muxStep s = { s with videoDone := true } := by
                simp [muxStep, hvd', had, hvq]
              have hrec := ih { s with videoDone := true }
                (by intro _; simpa using hvq)
                (by intro _; simpa using haq)
                (by simp [had, hvq, haq])
              rw [hs, hrec]
              simp [hvq, haq]
          | cons v vs =>
              have hs : muxStep s =
                  { s with
                    vqueue := vs,
                    vcount := s.vcount + 1,
                    videoPts := v.pts.getD ((s.vcount + 1 : ℕ) : ℤ),
                    writes := s.writes ++
                      [⟨true, v.pts.getD ((s.vcount + 1 : ℕ) : ℤ), v.payload⟩] } := by
                simp [muxStep, hvd', had, hvq]
              have hrec := ih
                { s with
                  vqueue := vs,
                  vcount := s.vcount + 1,
                  videoPts := v.pts.getD ((s.vcount + 1 : ℕ) : ℤ),
                  writes := s.writes ++
                    [⟨true, v.pts.getD ((s.vcount + 1 : ℕ) : ℤ), v.payload⟩] }
                (by intro h; simp [hvd'] at h)
                (by intro _; simpa using haq)
                (by
                  rw [hvq] at hm
                  simp [hvd', had, haq]
                  simp at hm
                  omega)
              simp only [] at hrec
              rw [hs, hrec]
              rw [haq]
              simp only [muxSpecAmended]
              simp [List.append_assoc]
        · -- both sides live: the last-written-pts comparison decides
          have had' : s.audioDone = false := by
            simpa using had
          rw [hvd', had'] at hm
          simp at hm
          by_cases hc : s.videoPts ≤ s.audioPts
          · cases hvq : s.vqueue with
            | nil =>
                have hs : muxStep s = { s with videoDone := true } := by
                  simp [muxStep, hvd', had', hc, hvq]
                have hrec := ih { s with videoDone := true }
                  (by intro _; simpa using hvq)
                  (by intro h; simp at h; exact ha h)
                  (by
                    rw [hvq] at hm
                    simp [had', hvq]
                    simp at hm
                    omega)
                simp only [] at hrec
                rw [hs, hrec]
                simp [hvq]
            | cons v vs =>
                have hs : muxStep s =
                    { s with
                      vqueue := vs,
                      vcount := s.vcount + 1,
                      videoPts := v.pts.getD ((s.vcount + 1 : ℕ) : ℤ),
                      writes := s.writes ++
                        [⟨true, v.pts.getD ((s.vcount + 1 : ℕ) : ℤ), v.payload⟩] } := by
                  simp [muxStep, hvd', had', hc, hvq]
                have hrec := ih
                  { s with
                    vqueue := vs,
                    vcount := s.vcount + 1,
                    videoPts := v.pts.getD ((s.vcount + 1 : ℕ) : ℤ),
                    writes := s.writes ++
                      [⟨true, v.pts.getD ((s.vcount + 1 : ℕ) : ℤ), v.payload⟩] }
                  (by intro h; simp [hvd'] at h)
                  (by intro h; simp at h; exact ha h)
                  (by
                    rw [hvq] at hm
                    simp [hvd', had']
                    simp at hm
                    omega)
                simp only [] at hrec
                rw [hs, hrec]
                cases haq : s.aqueue with
                | nil =>
                    simp only [muxSpecAmended]
                    simp [List.append_assoc]
                | cons a as =>
                    simp only [muxSpecAmended]
                    rw [if_pos hc]
                    simp [List.append_assoc]
          · cases haq : s.aqueue with
            | nil =>
                have hs : muxStep s = { s with audioDone := true } := by
                  simp [muxStep, hvd', had', hc, haq]
                have hrec := ih { s with audioDone := true }
                  (by intro h; simp at h; exact hv h)
                  (by intro _; simpa using haq)
                  (by
                    rw [haq] at hm
                    simp [hvd', haq]
                    simp at hm
                    omega)
                simp only [] at hrec
                rw [hs, hrec]
                simp [haq]
            | cons a as =>
                have hs : muxStep s =
                    { s with
                      aqueue := as,
                      acount := s.acount + 1,
                      audioPts := a.pts.getD ((s.acount + 1 : ℕ) : ℤ),
                      writes := s.writes ++
                        [⟨false, a.pts.getD ((s.acount + 1 : ℕ) : ℤ), a.payload⟩] } := by
                  simp [muxStep, hvd', had', hc, haq]
                have hrec := ih
                  { s with
                    aqueue := as,
                    acount := s.acount + 1,
                    audioPts := a.pts.getD ((s.acount + 1 : ℕ) : ℤ),
                    writes := s.writes ++
                      [⟨false, a.pts.getD ((s.acount + 1 : ℕ) : ℤ), a.payload⟩] }
                  (by intro h; simp at h; exact hv h)
                  (by intro h; simp [had'] at h)
                  (by
                    rw [haq] at hm
                    simp [hvd', had']
                    simp at hm
                    omega)
                simp only [] at hrec
                rw [hs, hrec]
                cases hvq : s.vqueue with
                | nil =>
                    simp only [muxSpecAmended]
                    simp [List.append_assoc]
                | cons v vs =>
                    simp only [muxSpecAmended]
                    rw [if_neg hc]
                    simp [List.append_assoc]

/-- C7 counterexample: with `fps = 24`, `sample_rate = 44100`, video
packets at pts 0 and 1 (frame ticks) and audio packets at pts 0 and 1536
(sample ticks), the muxer writes `V0, V1, A0, A1536` — after `V0` it picks
video again because it compares the raw tick values `1 ≤ 0` is false only
AFTER writing V1 — while the claimed head-pts-in-common-basis policy
writes `V0, A0, A1536, V1` (audio's 1536 samples ≈ 0.035 s come before
video's frame 1 ≈ 0.042 s).  The write orders differ at index 1. -/
theorem mux_interleave_counterexample :
    (muxRun [⟨some 0, 0⟩, ⟨some 1, 1⟩]
        [⟨some 0, 100⟩, ⟨some 1536, 101⟩]).writes =
      [⟨true, 0, 0⟩, ⟨true, 1, 1⟩, ⟨false, 0, 100⟩, ⟨false, 1536, 101⟩] ∧
    muxSpecClaim 24 44100 [⟨some 0, 0⟩, ⟨some 1, 1⟩]
        [⟨some 0, 100⟩, ⟨some 1536, 101⟩] =
      [⟨true, 0, 0⟩, ⟨false, 0, 100⟩, ⟨false, 1536, 101⟩, ⟨true, 1, 1⟩] ∧
    (muxRun [⟨some 0, 0⟩, ⟨some 1, 1⟩]
        [⟨some 0, 100⟩, ⟨some 1536, 101⟩]).writes ≠
      muxSpecClaim 24 44100 [⟨some 0, 0⟩, ⟨some 1, 1⟩]
        [⟨some 0, 100⟩, ⟨some 1536, 101⟩] := by
  have h1 : (muxRun [⟨some 0, 0⟩, ⟨some 1, 1⟩]
      [⟨some 0, 100⟩, ⟨some 1536, 101⟩]).writes =
      [⟨true, 0, 0⟩, ⟨true, 1, 1⟩, ⟨false, 0, 100⟩, ⟨false, 1536, 101⟩] := by
    decide
  have h2 : muxSpecClaim 24 44100 [⟨some 0, 0⟩, ⟨some 1, 1⟩]
      [⟨some 0, 100⟩, ⟨some 1536, 101⟩] =
      [⟨true, 0, 0⟩, ⟨false, 0, 100⟩, ⟨false, 1536, 101⟩, ⟨true, 1, 1⟩] := by
    norm_num [muxSpecClaim]
  refine ⟨h1, h2, ?_⟩
  rw [h1, h2]
  decide

/-- C7 amended: while both queues are live the muxer selects video iff the
pts of the LAST WRITTEN video packet is ≤ that of the last written audio
packet, both as raw ticks of their own time bases (initially 0; not the
queue heads, and not rescaled to a common basis — the configured stream
time base equals each packet's source base, so the rescale is the
identity); ties favor video; when one side has terminated it drains the
other completely (every packet of both queues is written exactly once, in
per-stream order); the trailer is written only after both queues have
terminated and drained. -/
theorem mux_interleave_spec (vs as : List EPacket) :
    (muxThread vs as).1.writes = muxSpecAmended vs as 0 0 0 0 ∧
    (muxThread vs as).1.writes.length = vs.length + as.length ∧
    (muxThread vs as).2 = true := by
  have h := muxLoop_writes (vs.length + as.length + 2)
    { vqueue := vs, aqueue := as, videoDone := false, audioDone := false,
      videoPts := 0, audioPts := 0, vcount := 0, acount := 0, writes := [] }
    (by intro h; simp at h)
    (by intro h; simp at h)
    (by simp)
  refine ⟨?_, ?_, rfl⟩
  · simpa [muxThread, muxRun] using h
  · have h2 : (muxThread vs as).1.writes = muxSpecAmended vs as 0 0 0 0 := by
      simpa [muxThread, muxRun] using h
    rw [h2, muxSpecAmended_length]

/-- C9 witness: `demux_dispatch_matches_probe` on a one-video/one-audio
container. -/
theorem demux_dispatch_matches_probe_witness :
    countKind StreamKind.video [StreamKind.video, StreamKind.audio] ≤ 1 ∧
    demuxSelect [StreamKind.video, StreamKind.audio] true true =
      probeSelect [StreamKind.video, StreamKind.audio] :=
  ⟨by decide,
   demux_dispatch_matches_probe [StreamKind.video, StreamKind.audio]
     (by decide) (by decide)⟩

end Transcoder
